import Mathlib

/-!
Verification of the AI image gallery backend: similarity engine, query
engine, ingestion pipeline with compensating cleanup, upload validation,
thumbnail generation, display-name derivation, and the enrichment pipeline.

Python floats on the similarity path are modelled as exact rationals; all
values involved (overlap counts divided by set sizes, fixed weights) are
exactly representable.  Python strings are modelled as Lean strings with
character-list operations mirroring the CPython semantics of the string
methods actually used (lower, split, strip).
-/

namespace Gallery

/-- Python str.lower over the characters of a string (ASCII case fold). -/
def pyLower (s : String) : String := ⟨s.data.map Char.toLower⟩

/-- Accumulator pass for Python str.split() with no separator: split on runs
of whitespace, discarding empty pieces.  `cur` holds the current word in
reverse. -/
def pySplitWsAux (cur : List Char) : List Char → List (List Char)
  | [] => if cur = [] then [] else [cur.reverse]
  | c :: rest =>
    if c.isWhitespace then
      if cur = [] then pySplitWsAux [] rest
      else cur.reverse :: pySplitWsAux [] rest
    else pySplitWsAux (c :: cur) rest

/-- Python str.split() with no separator. -/
def pySplitWs (s : String) : List String :=
  (pySplitWsAux [] s.data).map fun cs => ⟨cs⟩

/-- One image_metadata row as read by the similarity/query code after the
`meta = meta or {}` normalisation: tags, colors and description with empty
defaults. -/
structure Meta where
  tags : List String
  colors : List String
  description : String
deriving DecidableEq

/-- Python len(set(a).intersection(set(b))) for lists of strings: the number
of distinct elements of `a` that also occur in `b`. -/
def setInterCount (a b : List String) : Nat :=
  (a.dedup.filter (fun x => x ∈ b)).length

/-- Component score of get_similar_images: `(len(ref_set & cand_set) /
len(ref_set)) * 100` when the reference set is truthy (non-empty), else 0. -/
def overlapPct (refL candL : List String) : ℚ :=
  if refL.dedup ≠ [] then
    ((setInterCount refL candL : ℚ) / (refL.dedup.length : ℚ)) * 100
  else 0

/-- Keyword extraction in get_similar_images: lowercase the description,
split on whitespace, keep words longer than 3 characters (the set() around
the comprehension is reflected by `overlapPct` deduplicating its inputs). -/
def keywordsOf (description : String) : List String :=
  (pySplitWs (pyLower description)).filter fun w => 3 < w.length

/-- Weighted composite computed for each candidate in get_similar_images:
tags 50%, colors 30%, description keywords 20%. -/
def similarity_percentage (ref cand : Meta) : ℚ :=
  overlapPct ref.tags cand.tags * 0.5
  + overlapPct ref.colors cand.colors * 0.3
  + overlapPct (keywordsOf ref.description) (keywordsOf cand.description) * 0.2

/-- Round-half-even to an integer (the rounding Python's round uses),
modelled exactly on rationals. -/
def roundHalfEven (x : ℚ) : ℤ :=
  if x - ⌊x⌋ < 1 / 2 then ⌊x⌋
  else if 1 / 2 < x - ⌊x⌋ then ⌊x⌋ + 1
  else if ⌊x⌋ % 2 = 0 then ⌊x⌋ else ⌊x⌋ + 1

/-- Python round(x, 1): round half to even at the first decimal. -/
def pyRound1 (x : ℚ) : ℚ := (roundHalfEven (x * 10) : ℚ) / 10

/-- Python list.sort(key=lambda x: x[similarity_percentage], reverse=True):
stable descending sort on the stored (already rounded) score component. -/
def sortBySimilarityDesc (l : List (Nat × ℚ)) : List (Nat × ℚ) :=
  l.insertionSort fun a b => b.2 ≤ a.2

/-- Core of the GET /images/{id}/similar handler (main.py get_similar_images)
after ownership has been checked: validate the limit, score every other
image of the owner, keep candidates with strictly positive exact composite,
store round(similarity_percentage, 1) on each kept candidate, sort
descending by that stored rounded score and truncate.  Candidates are
(image id, flattened metadata) pairs in database fetch order. -/
def get_similar_images (limit : Int) (ref : Meta) (cands : List (Nat × Meta)) :
    Except String (List (Nat × ℚ)) :=
  if limit < 1 ∨ 50 < limit then
    .error "Limit must be between 1 and 50"
  else
    let scored := cands.map fun c => (c.1, similarity_percentage ref c.2)
    let kept := (scored.filter fun c => 0 < c.2).map fun c => (c.1, pyRound1 c.2)
    .ok ((sortBySimilarityDesc kept).take limit.toNat)

/-- Spec-side component formula, written as in the specification:
|ref_set ∩ cand_set| / |ref_set| × 100 over finite sets, 0 when the
reference set is empty. -/
def spec_component (refL candL : List String) : ℚ :=
  if refL.toFinset = ∅ then 0
  else ((refL.toFinset ∩ candL.toFinset).card : ℚ) / (refL.toFinset.card : ℚ) * 100

/-- Spec-side composite: 0.5×tag + 0.3×color + 0.2×keyword. -/
def spec_composite (ref cand : Meta) : ℚ :=
  0.5 * spec_component ref.tags cand.tags
  + 0.3 * spec_component ref.colors cand.colors
  + 0.2 * spec_component (keywordsOf ref.description) (keywordsOf cand.description)

lemma setInterCount_eq_card (a b : List String) :
    setInterCount a b = (a.toFinset ∩ b.toFinset).card := by
  classical
  have hnodup : (a.dedup.filter (fun x => x ∈ b)).Nodup :=
    List.Nodup.filter _ a.nodup_dedup
  rw [setInterCount, ← List.toFinset_card_of_nodup hnodup]
  congr 1
  ext x
  simp [List.mem_dedup]

lemma overlapPct_eq_spec (refL candL : List String) :
    overlapPct refL candL = spec_component refL candL := by
  rw [overlapPct, spec_component]
  by_cases h : refL.dedup = []
  · have hfin : refL.toFinset = ∅ := by
      rw [List.toFinset_eq_empty_iff, ← List.dedup_eq_nil]
      exact h
    simp [h, hfin]
  · have hfin : ¬ refL.toFinset = ∅ := by
      rw [List.toFinset_eq_empty_iff, ← List.dedup_eq_nil]
      exact h
    rw [if_pos h, if_neg hfin, setInterCount_eq_card, List.card_toFinset]

lemma similarity_percentage_eq_spec (ref cand : Meta) :
    similarity_percentage ref cand = spec_composite ref cand := by
  rw [similarity_percentage, spec_composite, overlapPct_eq_spec,
    overlapPct_eq_spec, overlapPct_eq_spec]
  ring

lemma overlapPct_nonneg (refL candL : List String) : 0 ≤ overlapPct refL candL := by
  rw [overlapPct]
  split
  · positivity
  · exact le_refl 0

lemma overlapPct_le_100 (refL candL : List String) : overlapPct refL candL ≤ 100 := by
  rw [overlapPct]
  split
  · rename_i h
    have hlen : (setInterCount refL candL : ℚ) ≤ (refL.dedup.length : ℚ) := by
      have := List.length_filter_le (fun x => x ∈ candL) refL.dedup
      exact_mod_cast this
    have hpos : (0 : ℚ) < (refL.dedup.length : ℚ) := by
      have : refL.dedup.length ≠ 0 := fun hc => h (List.eq_nil_of_length_eq_zero hc)
      exact_mod_cast Nat.pos_of_ne_zero this
    calc (setInterCount refL candL : ℚ) / (refL.dedup.length : ℚ) * 100
        ≤ 1 * 100 := by
          apply mul_le_mul_of_nonneg_right _ (by norm_num)
          exact (div_le_one hpos).mpr hlen
      _ = 100 := by norm_num
  · norm_num

lemma similarity_percentage_mem_Icc (ref cand : Meta) :
    0 ≤ similarity_percentage ref cand ∧ similarity_percentage ref cand ≤ 100 := by
  have h1 := overlapPct_le_100 ref.tags cand.tags
  have h2 := overlapPct_le_100 ref.colors cand.colors
  have h3 := overlapPct_le_100 (keywordsOf ref.description) (keywordsOf cand.description)
  have h4 := overlapPct_nonneg ref.tags cand.tags
  have h5 := overlapPct_nonneg ref.colors cand.colors
  have h6 := overlapPct_nonneg (keywordsOf ref.description) (keywordsOf cand.description)
  rw [similarity_percentage]
  constructor
  · nlinarith
  · nlinarith

lemma roundHalfEven_nonneg (x : ℚ) (hx : 0 ≤ x) : 0 ≤ roundHalfEven x := by
  have hfl : (0 : ℤ) ≤ ⌊x⌋ := Int.floor_nonneg.mpr hx
  rw [roundHalfEven]
  split
  · exact hfl
  · split
    · omega
    · split
      · exact hfl
      · omega

lemma roundHalfEven_le (x : ℚ) (n : ℤ) (hx : x ≤ (n : ℚ)) :
    roundHalfEven x ≤ n := by
  have hfl : ⌊x⌋ ≤ n := by
    have h := Int.floor_le_floor hx
    rwa [Int.floor_intCast] at h
  have hflx : (⌊x⌋ : ℚ) ≤ x := Int.floor_le x
  rw [roundHalfEven]
  split
  · exact hfl
  · rename_i h1
    split
    · rename_i h2
      have hlt : (⌊x⌋ : ℚ) < (n : ℚ) := by linarith
      have : ⌊x⌋ < n := by exact_mod_cast hlt
      omega
    · rename_i h2
      have hr : x - ⌊x⌋ = 1 / 2 := le_antisymm (not_lt.mp h2) (not_lt.mp h1)
      have hlt : (⌊x⌋ : ℚ) < (n : ℚ) := by linarith
      have hn : ⌊x⌋ < n := by exact_mod_cast hlt
      split
      · exact hfl
      · omega

lemma pyRound1_bounds (x : ℚ) (h0 : 0 ≤ x) (h100 : x ≤ 100) :
    0 ≤ pyRound1 x ∧ pyRound1 x ≤ 100 := by
  have hnn : 0 ≤ roundHalfEven (x * 10) :=
    roundHalfEven_nonneg _ (by positivity)
  have hle : roundHalfEven (x * 10) ≤ 1000 :=
    roundHalfEven_le _ 1000 (by push_cast; linarith)
  constructor
  · rw [pyRound1]
    apply div_nonneg _ (by norm_num)
    exact_mod_cast hnn
  · rw [pyRound1, div_le_iff (by norm_num)]
    have : ((roundHalfEven (x * 10) : ℤ) : ℚ) ≤ 1000 := by exact_mod_cast hle
    linarith

lemma sortDesc_pair_stable (a b : Nat × ℚ) (h : b.2 ≤ a.2) :
    sortBySimilarityDesc [a, b] = [a, b] := by
  simp [sortBySimilarityDesc, List.insertionSort, List.orderedInsert, h]

lemma sortDesc_pair_swap (a b : Nat × ℚ) (h : ¬b.2 ≤ a.2) :
    sortBySimilarityDesc [a, b] = [b, a] := by
  simp [sortBySimilarityDesc, List.insertionSort, List.orderedInsert, h]

lemma pyRound1_val_A : pyRound1 (90 / 7) = 129 / 10 := by
  have hfl : ⌊(90 / 7 : ℚ) * 10⌋ = 128 := by
    rw [Int.floor_eq_iff]
    norm_num
  rw [pyRound1, roundHalfEven, hfl, if_neg (by norm_num), if_pos (by norm_num)]
  norm_num

lemma pyRound1_val_B : pyRound1 (220 / 17) = 129 / 10 := by
  have hfl : ⌊(220 / 17 : ℚ) * 10⌋ = 129 := by
    rw [Int.floor_eq_iff]
    norm_num
  rw [pyRound1, roundHalfEven, hfl, if_pos (by norm_num)]
  norm_num

lemma pyRound1_val_small : pyRound1 (50 / 1001) = 0 := by
  have hfl : ⌊(50 / 1001 : ℚ) * 10⌋ = 0 := by
    rw [Int.floor_eq_iff]
    norm_num
  rw [pyRound1, roundHalfEven, hfl, if_pos (by norm_num)]
  norm_num

lemma pyRound1_val_25 : pyRound1 25 = 25 := by
  have hfl : ⌊(25 : ℚ) * 10⌋ = 250 := by
    rw [Int.floor_eq_iff]
    norm_num
  rw [pyRound1, roundHalfEven, hfl, if_pos (by norm_num)]
  norm_num

/-- Reference metadata for the rounding counterexample: 17 tags, 3 colors
and a description with 7 keywords longer than 3 characters. -/
def refRound : Meta :=
  ⟨["t01", "t02", "t03", "t04", "t05", "t06", "t07", "t08", "t09", "t10",
    "t11", "t12", "t13", "t14", "t15", "t16", "t17"],
   ["c1", "c2", "c3"],
   "alpha bravo carlo delta earls fonts girls"⟩

/-- Candidate sharing one color and one keyword with refRound: exact
composite 30·(1/3) + 20·(1/7) = 90/7 ≈ 12.857. -/
def candColorWord : Meta := ⟨[], ["c1"], "alpha"⟩

/-- Candidate sharing one tag and one color with refRound: exact composite
50·(1/17) + 30·(1/3) = 220/17 ≈ 12.941. -/
def candTagColor : Meta := ⟨["t01"], ["c2"], ""⟩

lemma simRound_A : similarity_percentage refRound candColorWord = 90 / 7 := by
  have htags : overlapPct refRound.tags candColorWord.tags = 0 := by
    rw [overlapPct, if_pos (by decide),
      show setInterCount refRound.tags candColorWord.tags = 0 from by decide,
      show refRound.tags.dedup.length = 17 from by decide]
    norm_num
  have hcolors : overlapPct refRound.colors candColorWord.colors = 100 / 3 := by
    rw [overlapPct, if_pos (by decide),
      show setInterCount refRound.colors candColorWord.colors = 1 from by decide,
      show refRound.colors.dedup.length = 3 from by decide]
    norm_num
  have hkw : overlapPct (keywordsOf refRound.description)
      (keywordsOf candColorWord.description) = 100 / 7 := by
    rw [overlapPct, if_pos (by decide),
      show setInterCount (keywordsOf refRound.description)
        (keywordsOf candColorWord.description) = 1 from by decide,
      show (keywordsOf refRound.description).dedup.length = 7 from by decide]
    norm_num
  rw [similarity_percentage, htags, hcolors, hkw]
  norm_num

lemma simRound_B : similarity_percentage refRound candTagColor = 220 / 17 := by
  have htags : overlapPct refRound.tags candTagColor.tags = 100 / 17 := by
    rw [overlapPct, if_pos (by decide),
      show setInterCount refRound.tags candTagColor.tags = 1 from by decide,
      show refRound.tags.dedup.length = 17 from by decide]
    norm_num
  have hcolors : overlapPct refRound.colors candTagColor.colors = 100 / 3 := by
    rw [overlapPct, if_pos (by decide),
      show setInterCount refRound.colors candTagColor.colors = 1 from by decide,
      show refRound.colors.dedup.length = 3 from by decide]
    norm_num
  have hkw : overlapPct (keywordsOf refRound.description)
      (keywordsOf candTagColor.description) = 0 := by
    rw [overlapPct, if_pos (by decide),
      show setInterCount (keywordsOf refRound.description)
        (keywordsOf candTagColor.description) = 0 from by decide,
      show (keywordsOf refRound.description).dedup.length = 7 from by decide]
    norm_num
  rw [similarity_percentage, htags, hcolors, hkw]
  norm_num

/-- C1 counterexample: the code stores round(composite, 1) and ranks by
that rounded score, not by the exact composite.  With exact composites
90/7 ≈ 12.857 (fetched first) and 220/17 ≈ 12.941 (fetched second), both
round to 12.9, so the stable sort keeps fetch order and returns the
rounded scores, while the claimed exact-composite pipeline returns the
exact values with the second candidate ranked first: the two disagree at
this input. -/
theorem get_similar_images_rounding_counterexample :
    get_similar_images 6 refRound [(1, candColorWord), (2, candTagColor)] =
      .ok [(1, 129 / 10), (2, 129 / 10)] ∧
    (sortBySimilarityDesc
        (([(1, candColorWord), (2, candTagColor)].map
            fun c => (c.1, spec_composite refRound c.2)).filter
          fun c => 0 < c.2)).take (Int.toNat 6) =
      [(2, 220 / 17), (1, 90 / 7)] ∧
    get_similar_images 6 refRound [(1, candColorWord), (2, candTagColor)] ≠
      .ok ((sortBySimilarityDesc
        (([(1, candColorWord), (2, candTagColor)].map
            fun c => (c.1, spec_composite refRound c.2)).filter
          fun c => 0 < c.2)).take (Int.toNat 6)) := by
  have hcode : get_similar_images 6 refRound [(1, candColorWord), (2, candTagColor)] =
      .ok [(1, 129 / 10), (2, 129 / 10)] := by
    rw [get_similar_images, if_neg (by norm_num)]
    simp only [List.map_cons, List.map_nil, simRound_A, simRound_B]
    rw [List.filter_cons_of_pos (by exact decide_eq_true (by norm_num)),
      List.filter_cons_of_pos (by exact decide_eq_true (by norm_num)),
      List.filter_nil]
    simp only [List.map_cons, List.map_nil, pyRound1_val_A, pyRound1_val_B]
    rw [sortDesc_pair_stable _ _ (by norm_num)]
    rfl
  have hexact : (sortBySimilarityDesc
      (([(1, candColorWord), (2, candTagColor)].map
          fun c => (c.1, spec_composite refRound c.2)).filter
        fun c => 0 < c.2)).take (Int.toNat 6) =
      [(2, 220 / 17), (1, 90 / 7)] := by
    have hm : ([(1, candColorWord), (2, candTagColor)].map
        fun c => (c.1, spec_composite refRound c.2)) =
        [(1, 90 / 7), (2, 220 / 17)] := by
      simp only [List.map_cons, List.map_nil, ← similarity_percentage_eq_spec,
        simRound_A, simRound_B]
    rw [hm, List.filter_cons_of_pos (by exact decide_eq_true (by norm_num)),
      List.filter_cons_of_pos (by exact decide_eq_true (by norm_num)),
      List.filter_nil]
    rw [sortDesc_pair_swap _ _ (by norm_num)]
    rfl
  refine ⟨hcode, hexact, fun heq => ?_⟩
  rw [hcode, hexact] at heq
  simp at heq

/-- C1 (amended): for a valid limit, get_similar_images returns exactly the
spec-side pipeline with the rounding the code performs: every other image
scored with the spec formulas (components relative to the reference sets,
composite 0.5/0.3/0.2), candidates with exact composite 0 excluded, each
kept candidate carrying round(composite, 1) — Python's round-half-even at
one decimal — ranked in descending order of that rounded score (stable in
fetch order), truncated to the limit; a limit outside [1,50] is rejected
with an invalid-argument error whatever the metadata, so no scoring ever
happens for it.  The returned list is sorted descending in the stored
score and no longer than the limit. -/
theorem get_similar_images_matches_spec (limit : Int) (ref : Meta)
    (cands : List (Nat × Meta)) :
    ((limit < 1 ∨ 50 < limit) →
      get_similar_images limit ref cands = .error "Limit must be between 1 and 50") ∧
    (1 ≤ limit → limit ≤ 50 →
      get_similar_images limit ref cands =
        .ok ((sortBySimilarityDesc
          (((cands.map fun c => (c.1, spec_composite ref c.2)).filter
            fun c => 0 < c.2).map fun c => (c.1, pyRound1 c.2))).take limit.toNat)) ∧
    (∀ res, get_similar_images limit ref cands = .ok res →
      res.Sorted (fun a b => b.2 ≤ a.2) ∧ res.length ≤ limit.toNat) := by
  refine ⟨fun h => ?_, fun h1 h2 => ?_, fun res hres => ?_⟩
  · rw [get_similar_images, if_pos h]
  · rw [get_similar_images, if_neg (by push_neg; exact ⟨h1, h2⟩)]
    have hmap : (cands.map fun c => (c.1, similarity_percentage ref c.2)) =
        (cands.map fun c => (c.1, spec_composite ref c.2)) := by
      apply List.map_congr_left
      intro c _
      rw [similarity_percentage_eq_spec]
    simp only [hmap]
  · rw [get_similar_images] at hres
    by_cases hlim : limit < 1 ∨ 50 < limit
    · rw [if_pos hlim] at hres
      exact absurd hres (by simp)
    · rw [if_neg hlim] at hres
      simp only [Except.ok.injEq] at hres
      subst hres
      constructor
      · apply List.Pairwise.sublist (List.take_sublist _ _)
        exact @List.sorted_insertionSort (Nat × ℚ) (fun a b => b.2 ≤ a.2) _
          ⟨fun a b => le_total b.2 a.2⟩
          ⟨fun a b c hab hbc => le_trans hbc hab⟩ _
      · exact List.length_take_le _ _

/-- C1 witness: a concrete run with limit 6 (reference tagged a,b; one
candidate tagged a) goes down the valid-limit branch of the amended
statement, and limit 0 is rejected before scoring. -/
theorem get_similar_images_matches_spec_witness :
    get_similar_images 6 ⟨["a", "b"], [], ""⟩ [(1, ⟨["a"], [], ""⟩)] =
      .ok ((sortBySimilarityDesc
        ((([(1, (⟨["a"], [], ""⟩ : Meta))].map
            fun c => (c.1, spec_composite ⟨["a", "b"], [], ""⟩ c.2)).filter
          fun c => 0 < c.2).map fun c => (c.1, pyRound1 c.2))).take (Int.toNat 6)) ∧
    get_similar_images 0 ⟨["a", "b"], [], ""⟩ [(1, ⟨["a"], [], ""⟩)] =
      .error "Limit must be between 1 and 50" :=
  ⟨(get_similar_images_matches_spec 6 ⟨["a", "b"], [], ""⟩
      [(1, ⟨["a"], [], ""⟩)]).2.1 (by decide) (by decide),
   (get_similar_images_matches_spec 0 ⟨["a", "b"], [], ""⟩
      [(1, ⟨["a"], [], ""⟩)]).1 (by decide)⟩

/-- The i-th synthetic tag: four fixed characters plus i repetitions of b,
so distinct indices give distinct tags. -/
def bigTag (i : Nat) : String := ⟨'t' :: 'a' :: 'g' :: 's' :: List.replicate i 'b'⟩

/-- Reference metadata with 1001 distinct tags (the metadata PATCH endpoint
accepts arbitrary tag lists, so such a row is reachable). -/
def refBig : Meta := ⟨(List.range 1001).map bigTag, [], ""⟩

/-- Candidate sharing exactly one of refBig's 1001 tags: exact composite
50/1001 ≈ 0.04995, which rounds to 0.0 at one decimal. -/
def candShared : Meta := ⟨[bigTag 0], [], ""⟩

lemma bigTag_inj : Function.Injective bigTag := by
  intro i j h
  have h2 : (bigTag i).data.length = (bigTag j).data.length := by rw [h]
  simp only [bigTag, List.length_cons, List.length_replicate] at h2
  omega

set_option maxRecDepth 8192 in
lemma refBig_nodup : refBig.tags.Nodup := (List.nodup_range 1001).map bigTag_inj

lemma filter_singleton_mem {α : Type} [DecidableEq α] :
    ∀ (l : List α) (a : α), l.Nodup → a ∈ l →
      l.filter (fun x => decide (x ∈ [a])) = [a]
  | [], a, _, ha => absurd ha (List.not_mem_nil a)
  | b :: t, a, hn, ha => by
    by_cases hba : b = a
    · subst hba
      rw [List.filter_cons_of_pos (by simp)]
      have hnt : ∀ x ∈ t, ¬(decide (x ∈ [b]) = true) := by
        intro x hx hdec
        have hxb : x ∈ [b] := of_decide_eq_true hdec
        rw [List.mem_singleton] at hxb
        subst hxb
        exact (List.nodup_cons.mp hn).1 hx
      rw [List.filter_eq_nil.mpr hnt]
    · rw [List.filter_cons_of_neg (by simp [hba])]
      have hat : a ∈ t := by
        rcases List.mem_cons.mp ha with h | h
        · exact absurd h.symm hba
        · exact h
      exact filter_singleton_mem t a (List.nodup_cons.mp hn).2 hat

set_option maxRecDepth 8192 in
lemma refBig_inter : setInterCount refBig.tags candShared.tags = 1 := by
  have hmem : bigTag 0 ∈ refBig.tags :=
    List.mem_map.mpr ⟨0, List.mem_range.mpr (by norm_num), rfl⟩
  rw [setInterCount, List.dedup_eq_self.mpr refBig_nodup,
    show candShared.tags = [bigTag 0] from rfl,
    filter_singleton_mem refBig.tags (bigTag 0) refBig_nodup hmem]
  rfl

set_option maxRecDepth 8192 in
lemma refBig_len : refBig.tags.dedup.length = 1001 := by
  rw [List.dedup_eq_self.mpr refBig_nodup,
    show refBig.tags = (List.range 1001).map bigTag from rfl,
    List.length_map, List.length_range]

set_option maxRecDepth 8192 in
lemma refBig_dedup_ne : refBig.tags.dedup ≠ [] := by
  intro h
  have h2 := congrArg List.length h
  rw [refBig_len] at h2
  simp at h2

set_option maxRecDepth 8192 in
lemma simSmall : similarity_percentage refBig candShared = 50 / 1001 := by
  have htags : overlapPct refBig.tags candShared.tags = 100 / 1001 := by
    rw [overlapPct, if_pos refBig_dedup_ne, refBig_inter, refBig_len]
    norm_num
  have hcolors : overlapPct refBig.colors candShared.colors = 0 := by
    rw [show refBig.colors = ([] : List String) from rfl,
      show candShared.colors = ([] : List String) from rfl,
      overlapPct, if_neg (by decide)]
  have hkw : overlapPct (keywordsOf refBig.description)
      (keywordsOf candShared.description) = 0 := by
    rw [show refBig.description = "" from rfl,
      show candShared.description = "" from rfl,
      show keywordsOf "" = [] from by decide,
      overlapPct, if_neg (by decide)]
  rw [similarity_percentage, htags, hcolors, hkw]
  norm_num

set_option maxRecDepth 8192 in
/-- C10 counterexample: a reference with 1001 tags and a candidate sharing
one of them has exact composite 50/1001 ≈ 0.04995 — strictly positive, so
the candidate is included — but the similarity_percentage the endpoint
stores and returns is round(50/1001, 1) = 0.0, which is not strictly
greater than 0. -/
theorem get_similar_images_returns_zero_similarity :
    get_similar_images 6 refBig [(1, candShared)] = .ok [(1, 0)] ∧
    0 < similarity_percentage refBig candShared ∧
    ¬(0 < (((1 : Nat), (0 : ℚ))).2) := by
  refine ⟨?_, ?_, fun h => lt_irrefl 0 h⟩
  · rw [get_similar_images, if_neg (by norm_num)]
    simp only [List.map_cons, List.map_nil, simSmall]
    rw [List.filter_cons_of_pos (by exact decide_eq_true (by norm_num)),
      List.filter_nil]
    simp only [List.map_cons, List.map_nil, pyRound1_val_small]
    rw [sortBySimilarityDesc]
    simp [List.insertionSort, List.take]
  · rw [simSmall]
    norm_num

/-- C10 (amended): every component and every exact composite lies in
[0, 100]; rounding to one decimal keeps a score in [0, 100]; and every item
of a successfully returned ranked list carries the rounded score of a
candidate whose exact (pre-rounding) composite is strictly positive — that
is the inclusion filter — though the stored rounded value itself can be
0.0 when the exact composite is below 0.05. -/
theorem similarity_percentage_in_range :
    (∀ refL candL, 0 ≤ overlapPct refL candL ∧ overlapPct refL candL ≤ 100) ∧
    (∀ ref cand : Meta, 0 ≤ similarity_percentage ref cand ∧
      similarity_percentage ref cand ≤ 100) ∧
    (∀ x : ℚ, 0 ≤ x → x ≤ 100 → 0 ≤ pyRound1 x ∧ pyRound1 x ≤ 100) ∧
    (∀ limit ref cands res, get_similar_images limit ref cands = .ok res →
      ∀ x ∈ res, (0 ≤ x.2 ∧ x.2 ≤ 100) ∧
        ∃ c ∈ cands, c.1 = x.1 ∧ 0 < similarity_percentage ref c.2 ∧
          x.2 = pyRound1 (similarity_percentage ref c.2)) := by
  refine ⟨fun refL candL => ⟨overlapPct_nonneg _ _, overlapPct_le_100 _ _⟩,
    similarity_percentage_mem_Icc, pyRound1_bounds,
    fun limit ref cands res hres x hx => ?_⟩
  rw [get_similar_images] at hres
  by_cases hlim : limit < 1 ∨ 50 < limit
  · rw [if_pos hlim] at hres
    exact absurd hres (by simp)
  · rw [if_neg hlim] at hres
    simp only [Except.ok.injEq] at hres
    subst hres
    have hx2 := (List.take_sublist _ _).subset hx
    have hx3 : x ∈ ((cands.map fun c => (c.1, similarity_percentage ref c.2)).filter
        fun c => 0 < c.2).map fun c => (c.1, pyRound1 c.2) := by
      have hperm := List.perm_insertionSort
        (fun a b : Nat × ℚ => b.2 ≤ a.2)
        (((cands.map fun c => (c.1, similarity_percentage ref c.2)).filter
          fun c => 0 < c.2).map fun c => (c.1, pyRound1 c.2))
      exact hperm.mem_iff.mp hx2
    obtain ⟨y, hy, hxy⟩ := List.mem_map.mp hx3
    have hpos : 0 < y.2 := by
      have hfy := List.of_mem_filter hy
      simp only [decide_eq_true_eq] at hfy
      exact hfy
    obtain ⟨c, hc, hcy⟩ := List.mem_map.mp (List.mem_of_mem_filter hy)
    have h1 : c.1 = y.1 := congrArg Prod.fst hcy
    have h2 : similarity_percentage ref c.2 = y.2 := congrArg Prod.snd hcy
    subst hxy
    have hmb := similarity_percentage_mem_Icc ref c.2
    rw [h2] at hmb
    have hrb := pyRound1_bounds y.2 hmb.1 hmb.2
    refine ⟨⟨hrb.1, hrb.2⟩, c, hc, h1, ?_, ?_⟩
    · rw [h2]
      exact hpos
    · rw [h2]

/-- C10 witness: on a concrete catalog (reference tagged a,b; candidate
tagged a) the run returns the candidate with exact composite 25 (rounding
leaves it unchanged), and the theorem instantiated on that run yields the
[0, 100] bounds for the returned score; the composite bound is
instantiated on the same metadata. -/
theorem similarity_percentage_in_range_witness :
    (0 ≤ (((1 : Nat), (25 : ℚ))).2 ∧ (((1 : Nat), (25 : ℚ))).2 ≤ 100) ∧
      0 ≤ similarity_percentage ⟨["a", "b"], [], ""⟩ ⟨["a"], [], ""⟩ := by
  have h1 : overlapPct ["a", "b"] ["a"] = 50 := by
    rw [overlapPct, if_pos (by decide),
      show setInterCount ["a", "b"] ["a"] = 1 from by decide,
      show (["a", "b"] : List String).dedup.length = 2 from by decide]
    norm_num
  have h2 : overlapPct ([] : List String) [] = 0 := by
    rw [overlapPct, if_neg (by decide)]
  have h3 : keywordsOf "" = [] := by decide
  have hsim : similarity_percentage ⟨["a", "b"], [], ""⟩ ⟨["a"], [], ""⟩ = 25 := by
    rw [similarity_percentage]
    simp only [h3]
    rw [h1, h2]
    norm_num
  have hrun : get_similar_images 6 ⟨["a", "b"], [], ""⟩ [(1, ⟨["a"], [], ""⟩)] =
      .ok [(1, 25)] := by
    rw [get_similar_images, if_neg (by norm_num)]
    simp only [List.map_cons, List.map_nil, hsim]
    rw [List.filter_cons_of_pos (by exact decide_eq_true (by norm_num)),
      List.filter_nil]
    simp only [List.map_cons, List.map_nil, pyRound1_val_25]
    rw [sortBySimilarityDesc]
    simp [List.insertionSort, List.take]
  exact ⟨(similarity_percentage_in_range.2.2.2 6 ⟨["a", "b"], [], ""⟩
      [(1, ⟨["a"], [], ""⟩)] [(1, 25)] hrun (1, 25) (by simp)).1,
    (similarity_percentage_in_range.2.1 ⟨["a", "b"], [], ""⟩ ⟨["a"], [], ""⟩).1⟩

/-! Query engine: image_service.get_user_images. -/

/-- One image_metadata row as stored, including the generated display name
(None when enrichment has not produced one). -/
structure MetaRow where
  description : String
  tags : List String
  colors : List String
  aiGeneratedName : Option String
deriving DecidableEq

/-- One row of the images table joined with its zero-or-one metadata row,
scoped to the owner.  `uploadedAt` is an abstract creation timestamp
(larger = more recent). -/
structure DbImage where
  id : Nat
  filename : String
  uploadedAt : Nat
  meta : Option MetaRow
deriving DecidableEq

/-- Image record after the flattening loop of get_user_images: metadata
fields merged in with empty-value fallbacks. -/
structure FlatImage where
  id : Nat
  filename : String
  uploadedAt : Nat
  description : String
  tags : List String
  colors : List String
  aiGeneratedName : Option String
deriving DecidableEq

/-- Flattening of the nested image_metadata embed, with the
`meta = meta or {}` / `or []` fallbacks for absent metadata. -/
def flatten (img : DbImage) : FlatImage :=
  match img.meta with
  | some m => ⟨img.id, img.filename, img.uploadedAt, m.description, m.tags,
      m.colors, m.aiGeneratedName⟩
  | none => ⟨img.id, img.filename, img.uploadedAt, "", [], [], none⟩

/-- Python lexicographic string comparison (code-point order, shorter
string first on equal leading characters), as a boolean on char lists. -/
def pyStrLeAux : List Char → List Char → Bool
  | [], _ => true
  | _ :: _, [] => false
  | a :: as, b :: bs =>
    if a = b then pyStrLeAux as bs else decide (a < b)

/-- Python s1 <= s2 for strings. -/
def pyStrLe (s1 s2 : String) : Bool := pyStrLeAux s1.data s2.data

/-- Python filename.rsplit('.', 1)[0]: the filename without its last
extension; the whole name when it has no dot. -/
def stripLastExt (s : String) : String :=
  if '.' ∈ s.data then ⟨((s.data.reverse.dropWhile (· ≠ '.')).drop 1).reverse⟩
  else s

/-- Display-name resolution of get_user_images: the AI-generated name when
present and non-empty (Python truthiness), else the original filename
without extension. -/
def displayNameOf (img : FlatImage) : String :=
  match img.aiGeneratedName with
  | some n => if n = "" then stripLastExt img.filename else n
  | none => stripLastExt img.filename

/-- Tags filter of get_user_images: Python
`img.get('tags') and all(tag in img.get('tags', []) for tag in tags)`. -/
def matchesTags (filterTags : List String) (img : FlatImage) : Bool :=
  decide (img.tags ≠ []) && filterTags.all fun t => decide (t ∈ img.tags)

/-- Colors filter of get_user_images, same shape as the tags filter. -/
def matchesColors (filterColors : List String) (img : FlatImage) : Bool :=
  decide (img.colors ≠ []) && filterColors.all fun c => decide (c ∈ img.colors)

/-- Leading-block test: the first list is an initial segment of the
second. -/
def startsWithSeg : List Char → List Char → Bool
  | [], _ => true
  | _ :: _, [] => false
  | a :: as, b :: bs => a = b && startsWithSeg as bs

/-- Contiguous-substring test on char lists: the needle starts at some
position of the hay. -/
def containsSeg (needle : List Char) : List Char → Bool
  | [] => startsWithSeg needle []
  | c :: rest => startsWithSeg needle (c :: rest) || containsSeg needle rest

/-- Python substring containment `needle in hay`. -/
def strContains (hay needle : String) : Bool := containsSeg needle.data hay.data

/-- Text search of get_user_images: case-insensitive containment in
description, any tag, filename, or a truthy AI-generated name. -/
def matchesSearch (searchLower : String) (img : FlatImage) : Bool :=
  strContains (pyLower img.description) searchLower
  || img.tags.any (fun tag => strContains (pyLower tag) searchLower)
  || strContains (pyLower img.filename) searchLower
  || (match img.aiGeneratedName with
      | some n => decide (n ≠ "") && strContains (pyLower n) searchLower
      | none => false)

/-- Database-side ordering applied by get_user_images before pagination:
uploaded_at ascending for oldest, descending for every other sort key
(recent, a-z, z-a all fetch most-recent-first). -/
def orderedCatalog (sortBy : String) (catalog : List DbImage) : List DbImage :=
  if sortBy = "oldest" then
    catalog.insertionSort fun a b => a.uploadedAt ≤ b.uploadedAt
  else
    catalog.insertionSort fun a b => b.uploadedAt ≤ a.uploadedAt

/-- Supabase .range(offset, offset + limit - 1): an inclusive row window,
so drop `offset` rows and take `limit`. -/
def pageSlice (limit offset : Nat) (l : List DbImage) : List DbImage :=
  (l.drop offset).take limit

/-- In-memory tags-filter step (applied only when the filter list is
truthy). -/
def tagsFilterStep (tags : List String) (l : List FlatImage) : List FlatImage :=
  if tags ≠ [] then l.filter (matchesTags tags) else l

/-- In-memory colors-filter step. -/
def colorsFilterStep (colors : List String) (l : List FlatImage) : List FlatImage :=
  if colors ≠ [] then l.filter (matchesColors colors) else l

/-- In-memory search-filter step (skipped for a missing or empty search
string, per Python truthiness). -/
def searchFilterStep (search : Option String) (l : List FlatImage) : List FlatImage :=
  match search with
  | some s => if s ≠ "" then l.filter (matchesSearch (pyLower s)) else l
  | none => l

/-- All three in-memory filters of get_user_images in code order. -/
def applyFilters (search : Option String) (tags colors : List String)
    (l : List FlatImage) : List FlatImage :=
  searchFilterStep search (colorsFilterStep colors (tagsFilterStep tags l))

/-- Final alphabetical re-sort of get_user_images: by lowercased display
name, ascending for a-z, descending for z-a, untouched otherwise. -/
def alphaSort (sortBy : String) (l : List (FlatImage × String)) :
    List (FlatImage × String) :=
  if sortBy = "a-z" then
    l.insertionSort fun a b => pyStrLe (pyLower a.2) (pyLower b.2) = true
  else if sortBy = "z-a" then
    l.insertionSort fun a b => pyStrLe (pyLower b.2) (pyLower a.2) = true
  else l

/-- image_service.get_user_images on the owner's catalog: order in the
database, slice the page there, flatten the join, filter the page
in memory, count what is left as the total, attach display names, and
re-sort alphabetically when asked.  Returns (images with display names,
total). -/
def get_user_images (catalog : List DbImage) (limit offset : Nat)
    (search : Option String) (tags colors : List String) (sortBy : String) :
    List (FlatImage × String) × Nat :=
  let page := (pageSlice limit offset (orderedCatalog sortBy catalog)).map flatten
  let filtered := applyFilters search tags colors page
  let withNames := filtered.map fun img => (img, displayNameOf img)
  (alphaSort sortBy withNames, filtered.length)

/-- Modelled from the spec (section 4.5 list_items): filters applied to the
owner's full catalog, total = post-filter count of the whole catalog,
sorting (creation time, or display name for a-z/z-a) computed on the full
filtered result, and the limit/offset slice taken last. -/
def spec_list_items (catalog : List DbImage) (limit offset : Nat)
    (search : Option String) (tags colors : List String) (sortBy : String) :
    List (FlatImage × String) × Nat :=
  let filtered := applyFilters search tags colors (catalog.map flatten)
  let withNames := filtered.map fun img => (img, displayNameOf img)
  let sorted :=
    if sortBy = "oldest" then
      withNames.insertionSort fun a b => a.1.uploadedAt ≤ b.1.uploadedAt
    else if sortBy = "a-z" then
      withNames.insertionSort fun a b => pyStrLe (pyLower a.2) (pyLower b.2) = true
    else if sortBy = "z-a" then
      withNames.insertionSort fun a b => pyStrLe (pyLower b.2) (pyLower a.2) = true
    else withNames.insertionSort fun a b => b.1.uploadedAt ≤ a.1.uploadedAt
  ((sorted.drop offset).take limit, filtered.length)

/-- Two-image catalog: the older image 1 is tagged beach, the newer image 2
has no metadata at all. -/
def catalogPagination : List DbImage :=
  [⟨1, "a.jpg", 1, some ⟨"", ["beach"], [], none⟩⟩,
   ⟨2, "b.jpg", 2, none⟩]

/-- C2 (bug evaluation): with limit 1, a beach tags-filter and recent sort
on `catalogPagination`, the code slices one row out of the database before
filtering, so the matching older image is never seen: it returns no items
and total 0, while the spec-ordered pipeline (filter the full catalog, then
sort, then slice) returns the beach image and total 1. -/
theorem get_user_images_filters_only_the_page :
    get_user_images catalogPagination 1 0 none ["beach"] [] "recent" = ([], 0) ∧
    spec_list_items catalogPagination 1 0 none ["beach"] [] "recent" =
      ([(⟨1, "a.jpg", 1, "", ["beach"], [], none⟩, "a")], 1) := by
  constructor
  · rfl
  · rfl

lemma mem_alphaSort {sortBy : String} {l : List (FlatImage × String)}
    {x : FlatImage × String} : x ∈ alphaSort sortBy l ↔ x ∈ l := by
  rw [alphaSort]
  split
  · exact (List.perm_insertionSort _ l).mem_iff
  · split
    · exact (List.perm_insertionSort _ l).mem_iff
    · exact Iff.rfl

lemma mem_tagsFilterStep {tags : List String} {l : List FlatImage}
    {img : FlatImage} (h : img ∈ tagsFilterStep tags l) :
    img ∈ l ∧ (tags ≠ [] → matchesTags tags img = true) := by
  rw [tagsFilterStep] at h
  by_cases ht : tags ≠ []
  · rw [if_pos ht] at h
    exact ⟨List.mem_of_mem_filter h, fun _ => List.of_mem_filter h⟩
  · rw [if_neg ht] at h
    exact ⟨h, fun hc => absurd hc ht⟩

lemma mem_colorsFilterStep {colors : List String} {l : List FlatImage}
    {img : FlatImage} (h : img ∈ colorsFilterStep colors l) :
    img ∈ l ∧ (colors ≠ [] → matchesColors colors img = true) := by
  rw [colorsFilterStep] at h
  by_cases hc : colors ≠ []
  · rw [if_pos hc] at h
    exact ⟨List.mem_of_mem_filter h, fun _ => List.of_mem_filter h⟩
  · rw [if_neg hc] at h
    exact ⟨h, fun hcc => absurd hcc hc⟩

lemma mem_searchFilterStep {search : Option String} {l : List FlatImage}
    {img : FlatImage} (h : img ∈ searchFilterStep search l) : img ∈ l := by
  cases search with
  | none => exact h
  | some s =>
    rw [searchFilterStep] at h
    split at h
    · exact List.mem_of_mem_filter h
    · exact h

lemma matchesTags_superset {tags : List String} {img : FlatImage}
    (h : matchesTags tags img = true) : ∀ t ∈ tags, t ∈ img.tags := by
  rw [matchesTags, Bool.and_eq_true] at h
  intro t ht
  exact of_decide_eq_true (List.all_eq_true.mp h.2 t ht)

lemma matchesColors_superset {colors : List String} {img : FlatImage}
    (h : matchesColors colors img = true) : ∀ c ∈ colors, c ∈ img.colors := by
  rw [matchesColors, Bool.and_eq_true] at h
  intro c hc
  exact of_decide_eq_true (List.all_eq_true.mp h.2 c hc)

lemma mem_result_filtered {catalog : List DbImage} {limit offset : Nat}
    {search : Option String} {tags colors : List String} {sortBy : String}
    {img : FlatImage} {dn : String}
    (h : (img, dn) ∈ (get_user_images catalog limit offset search tags colors sortBy).1) :
    img ∈ applyFilters search tags colors
      ((pageSlice limit offset (orderedCatalog sortBy catalog)).map flatten) := by
  simp only [get_user_images] at h
  rcases List.mem_map.mp (mem_alphaSort.mp h) with ⟨a, ha, heq⟩
  simp only [Prod.mk.injEq] at heq
  rw [← heq.1]
  exact ha

/-- C9: whenever a non-empty tags filter is passed, an image can appear in
the result of get_user_images only if its tag list contains every requested
tag (AND superset semantics); the colors filter behaves identically over
exact string matches. -/
theorem get_user_images_and_filter_semantics (catalog : List DbImage)
    (limit offset : Nat) (search : Option String) (tags colors : List String)
    (sortBy : String) :
    (tags ≠ [] → ∀ img dn,
      (img, dn) ∈ (get_user_images catalog limit offset search tags colors sortBy).1 →
      ∀ t ∈ tags, t ∈ img.tags) ∧
    (colors ≠ [] → ∀ img dn,
      (img, dn) ∈ (get_user_images catalog limit offset search tags colors sortBy).1 →
      ∀ c ∈ colors, c ∈ img.colors) := by
  constructor
  · intro htags img dn hmem
    have hf := mem_result_filtered hmem
    rw [applyFilters] at hf
    have h2 := (mem_tagsFilterStep (mem_colorsFilterStep (mem_searchFilterStep hf)).1).2 htags
    exact matchesTags_superset h2
  · intro hcolors img dn hmem
    have hf := mem_result_filtered hmem
    rw [applyFilters] at hf
    have h2 := (mem_colorsFilterStep (mem_searchFilterStep hf)).2 hcolors
    exact matchesColors_superset h2

/-- Two-image catalog for the C9 witness: image 1 is tagged beach and
sunset, image 2 only beach. -/
def catalogBeach : List DbImage :=
  [⟨1, "a.jpg", 1, some ⟨"", ["beach", "sunset"], [], none⟩⟩,
   ⟨2, "b.jpg", 2, some ⟨"", ["beach"], [], none⟩⟩]

/-- C9 witness: filtering `catalogBeach` by beach and sunset returns only
the doubly-tagged image (the beach-only image is excluded), and the theorem
instantiated on that concrete run yields sunset ∈ its tags. -/
theorem get_user_images_and_filter_semantics_witness :
    get_user_images catalogBeach 20 0 none ["beach", "sunset"] [] "recent" =
      ([(⟨1, "a.jpg", 1, "", ["beach", "sunset"], [], none⟩, "a")], 1) ∧
    "sunset" ∈ (FlatImage.tags ⟨1, "a.jpg", 1, "", ["beach", "sunset"], [], none⟩) :=
  ⟨by rfl,
   (get_user_images_and_filter_semantics catalogBeach 20 0 none
      ["beach", "sunset"] [] "recent").1 (by decide)
     ⟨1, "a.jpg", 1, "", ["beach", "sunset"], [], none⟩ "a" (by decide)
     "sunset" (by decide)⟩

/-! Ingestion orchestrator: image_service.process_image_upload and its
compensating cleanup, over an environment scripting which external calls
fail. -/

/-- Failure script for one ingest run: which of the external steps raise. -/
structure IngestEnv where
  validationError : Option String
  thumbnailFails : Bool
  uploadOriginalFails : Bool
  uploadThumbFails : Bool
  insertFails : Bool
  deleteOriginalFails : Bool
  deleteThumbFails : Bool
deriving DecidableEq

/-- Blob-store test double: stored paths plus the record of every remove
call attempted. -/
structure BlobStore where
  blobs : List String
  deleteCalls : List String
deriving DecidableEq

/-- Storage path of the original upload,
`{user_id}/original/{unique_id}.{ext}` with the generated id abstracted. -/
def originalPath (userId : String) : String := userId ++ "/original/u"

/-- Storage path of the thumbnail, sibling folder of the original. -/
def thumbnailPath (userId : String) : String := userId ++ "/thumbnail/u"

/-- Raw storage remove: records the call; on failure the blob stays and an
error is reported, on success the path is removed. -/
def storageRemove (fails : Bool) (path : String) (st : BlobStore) :
    BlobStore × Option String :=
  if fails then
    ({ st with deleteCalls := st.deleteCalls ++ [path] }, some "remove failed")
  else
    ({ blobs := st.blobs.erase path,
       deleteCalls := st.deleteCalls ++ [path] }, none)

/-- image_service.delete_from_storage: best-effort removal that logs and
swallows any storage error — by construction it has no error channel, so a
deletion failure can never be raised to its caller. -/
def delete_from_storage (fails : Bool) (path : String) (st : BlobStore) :
    BlobStore :=
  (storageRemove fails path st).1

/-- image_service.process_image_upload on the failure script: validate,
make the thumbnail, upload the original, upload the thumbnail, create the
record; on an exception delete whichever of the two blob paths have been
set, then surface the original error.  Returns the surfaced outcome and
the final blob-store state. -/
def process_image_upload (env : IngestEnv) (userId : String) (st : BlobStore) :
    Except String Unit × BlobStore :=
  match env.validationError with
  | some e => (.error e, st)
  | none =>
    if env.thumbnailFails then (.error "Image upload failed: thumbnail", st)
    else if env.uploadOriginalFails then
      (.error "Failed to upload to storage", st)
    else
      let st1 := { st with blobs := st.blobs ++ [originalPath userId] }
      if env.uploadThumbFails then
        (.error "Failed to upload to storage",
         delete_from_storage env.deleteOriginalFails (originalPath userId) st1)
      else
        let st2 := { st1 with blobs := st1.blobs ++ [thumbnailPath userId] }
        if env.insertFails then
          (.error "Failed to create database record",
           delete_from_storage env.deleteThumbFails (thumbnailPath userId)
             (delete_from_storage env.deleteOriginalFails (originalPath userId) st2))
        else (.ok (), st2)

/-- C3: when validation, thumbnailing and both uploads succeed but the
record insert fails, ingest surfaces the record-creation error (whatever
the outcome of the best-effort deletions — a blob-deletion failure is never
raised), it attempts deletion of exactly the two just-written blobs, and
when those deletions succeed the blob store is left with zero blobs. -/
theorem ingest_compensates_record_failure (userId : String)
    (dOrig dThumb : Bool) :
    (process_image_upload ⟨none, false, false, false, true, dOrig, dThumb⟩
        userId ⟨[], []⟩).1 = .error "Failed to create database record" ∧
    (process_image_upload ⟨none, false, false, false, true, dOrig, dThumb⟩
        userId ⟨[], []⟩).2.deleteCalls =
      [originalPath userId, thumbnailPath userId] ∧
    (dOrig = false → dThumb = false →
      (process_image_upload ⟨none, false, false, false, true, dOrig, dThumb⟩
        userId ⟨[], []⟩).2.blobs = []) := by
  cases dOrig <;> cases dThumb <;>
    simp [process_image_upload, delete_from_storage, storageRemove]

/-- C3 witness: the concrete run for user u with succeeding deletions ends
with no blobs, both delete calls recorded, and the record-creation error
surfaced. -/
theorem ingest_compensates_record_failure_witness :
    (process_image_upload ⟨none, false, false, false, true, false, false⟩
        "u" ⟨[], []⟩).1 = .error "Failed to create database record" ∧
    (process_image_upload ⟨none, false, false, false, true, false, false⟩
        "u" ⟨[], []⟩).2.blobs = [] :=
  ⟨(ingest_compensates_record_failure "u" false false).1,
   (ingest_compensates_record_failure "u" false false).2.2 rfl rfl⟩

/-! Validator: image_service.validate_image_file. -/

/-- Python s.startswith(pat). -/
def pyStartsWith (s pat : String) : Bool := startsWithSeg pat.data s.data

/-- Maximum accepted upload size in bytes (10MB). -/
def MAX_FILE_SIZE : Nat := 10 * 1024 * 1024

/-- Rejection reasons of validate_image_file, carrying the detail the code
puts in the HTTP response. -/
inductive RejectReason
  | tooLarge
  | empty
  | unsupportedType (declared : String)
  | contentMismatch (detected : String)
  | invalidImage (complaint : String)
deriving DecidableEq

/-- Upload as seen by validate_image_file: the measured byte count, the
declared content type (None when the client omitted it, possibly empty),
whether the python-magic capability is importable, what it sniffs from the
bytes when it is, and the PIL open+verify outcome (None = structurally
valid, Some complaint = decode failure). -/
structure UploadInput where
  fileSize : Nat
  contentType : Option String
  magicAvailable : Bool
  sniffedMime : String
  decodeError : Option String
deriving DecidableEq

/-- Python `file.content_type and not file.content_type.startswith('image/')`:
a truthy declared type outside the image family. -/
def badDeclaredType (oct : Option String) : Bool :=
  match oct with
  | some ct => decide (ct ≠ "") && !(pyStartsWith ct "image/")
  | none => false

/-- Sniffing gate: only when python-magic is available, and only for a
truthy sniffed mime outside the image family. -/
def badSniffedType (f : UploadInput) : Bool :=
  f.magicAvailable && decide (f.sniffedMime ≠ "") && !(pyStartsWith f.sniffedMime "image/")

/-- image_service.validate_image_file in code order: size-too-large, empty,
declared content type, optional magic sniff, decode-verify. -/
def validate_image_file (f : UploadInput) : Except RejectReason Unit :=
  if MAX_FILE_SIZE < f.fileSize then .error .tooLarge
  else if f.fileSize = 0 then .error .empty
  else if badDeclaredType f.contentType then
    .error (.unsupportedType (f.contentType.getD ""))
  else if badSniffedType f then .error (.contentMismatch f.sniffedMime)
  else
    match f.decodeError with
    | some e => .error (.invalidImage e)
    | none => .ok ()

/-- Modelled from the spec (section 4.1): the same five gates in the
spec's order — empty payload first, then size, declared type, best-effort
sniff, decode-verify — each short-circuiting the rest. -/
def validate_spec_order (f : UploadInput) : Except RejectReason Unit :=
  if f.fileSize = 0 then .error .empty
  else if MAX_FILE_SIZE < f.fileSize then .error .tooLarge
  else if badDeclaredType f.contentType then
    .error (.unsupportedType (f.contentType.getD ""))
  else if badSniffedType f then .error (.contentMismatch f.sniffedMime)
  else
    match f.decodeError with
    | some e => .error (.invalidImage e)
    | none => .ok ()

/-- C4: on every input, validate_image_file returns exactly what the
spec-ordered five-gate pipeline returns (the empty/too-large checks are
mutually exclusive, so the code's swapped order is observationally the
spec's order, and each first failing gate short-circuits the rest); an
empty payload is always rejected as empty and an oversized one as too
large whatever the later gates would say; and when the sniffing capability
is absent the verdict does not depend on the sniffed mime at all. -/
theorem validate_image_file_gate_order (f : UploadInput) :
    validate_image_file f = validate_spec_order f ∧
    (f.fileSize = 0 → validate_image_file f = .error .empty) ∧
    (MAX_FILE_SIZE < f.fileSize → validate_image_file f = .error .tooLarge) ∧
    (f.magicAvailable = false → ∀ m1 m2 : String,
      validate_image_file { f with sniffedMime := m1 } =
        validate_image_file { f with sniffedMime := m2 }) := by
  refine ⟨?_, fun h0 => ?_, fun hbig => ?_, fun hmag m1 m2 => ?_⟩
  · rw [validate_image_file, validate_spec_order]
    by_cases h0 : f.fileSize = 0
    · simp [h0, MAX_FILE_SIZE]
    · simp [h0]
  · rw [validate_image_file, if_neg (by rw [h0]; exact not_lt_of_le (Nat.zero_le _)),
      if_pos h0]
  · rw [validate_image_file, if_pos hbig]
  · rw [validate_image_file, validate_image_file]
    simp [badSniffedType, hmag]

/-- C4 witness: an empty upload that would also fail the type and decode
gates is rejected as empty (instantiating the short-circuit part on a
concrete input), and without the sniffing capability two different sniffed
mimes give the same verdict. -/
theorem validate_image_file_gate_order_witness :
    validate_image_file ⟨0, some "application/pdf", true, "text/plain",
      some "cannot identify image file"⟩ = .error .empty ∧
    validate_image_file ⟨5, some "image/png", false, "text/plain", none⟩ =
      validate_image_file ⟨5, some "image/png", false, "application/pdf", none⟩ :=
  ⟨(validate_image_file_gate_order ⟨0, some "application/pdf", true,
      "text/plain", some "cannot identify image file"⟩).2.1 rfl,
   (validate_image_file_gate_order ⟨5, some "image/png", false, "x", none⟩).2.2.2
     rfl "text/plain" "application/pdf"⟩

/-! Derivative generator: image_service.create_thumbnail geometry.  The
Python float arithmetic on the scale factor is modelled exactly over ℚ;
`int()` on the non-negative products is the floor. -/

/-- Scale factor of create_thumbnail: the larger of target/original in each
dimension (target fixed at 300×300), so the scaled image covers the target
box. -/
def thumbScale (w h : Nat) : ℚ := max ((300 : ℚ) / w) ((300 : ℚ) / h)

/-- Width after `image.resize(new_size)`: int(original_width * ratio). -/
def scaledW (w h : Nat) : Nat := (⌊(w : ℚ) * thumbScale w h⌋).toNat

/-- Height after resize: int(original_height * ratio). -/
def scaledH (w h : Nat) : Nat := (⌊(h : ℚ) * thumbScale w h⌋).toNat

/-- Left edge of the centered crop box, (width - 300) // 2 with Python
floor division. -/
def cropLeft (bigW : Nat) : Int := Int.fdiv ((bigW : ℤ) - 300) 2

/-- Top edge of the centered crop box. -/
def cropTop (bigH : Nat) : Int := Int.fdiv ((bigH : ℤ) - 300) 2

/-- Pixel size of `image.crop((left, top, left+300, top+300))`: PIL's crop
always returns a box-sized image, (right - left, bottom - top). -/
def croppedSize (bigW bigH : Nat) : Int × Int :=
  ((cropLeft bigW + 300) - cropLeft bigW, (cropTop bigH + 300) - cropTop bigH)

/-- Output pixel dimensions of create_thumbnail for a w×h input. -/
def create_thumbnail_size (w h : Nat) : Int × Int :=
  croppedSize (scaledW w h) (scaledH w h)

lemma scaledW_ge (w h : Nat) (hw : 1 ≤ w) : 300 ≤ scaledW w h := by
  have hw0 : (0 : ℚ) < (w : ℚ) := by exact_mod_cast hw
  have hcov : (300 : ℚ) ≤ (w : ℚ) * thumbScale w h := by
    have hsc : (300 : ℚ) / w ≤ thumbScale w h := le_max_left _ _
    have := mul_le_mul_of_nonneg_left hsc (le_of_lt hw0)
    calc (300 : ℚ) = (w : ℚ) * ((300 : ℚ) / w) := by
          rw [mul_comm, div_mul_cancel₀ _ (ne_of_gt hw0)]
      _ ≤ (w : ℚ) * thumbScale w h := this
  have hfl : (300 : ℤ) ≤ ⌊(w : ℚ) * thumbScale w h⌋ :=
    Int.le_floor.mpr (by exact_mod_cast hcov)
  rw [scaledW]
  exact (Int.le_toNat (le_trans (by norm_num) hfl)).mpr hfl

lemma scaledH_ge (w h : Nat) (hh : 1 ≤ h) : 300 ≤ scaledH w h := by
  have hh0 : (0 : ℚ) < (h : ℚ) := by exact_mod_cast hh
  have hcov : (300 : ℚ) ≤ (h : ℚ) * thumbScale w h := by
    have hsc : (300 : ℚ) / h ≤ thumbScale w h := le_max_right _ _
    have := mul_le_mul_of_nonneg_left hsc (le_of_lt hh0)
    calc (300 : ℚ) = (h : ℚ) * ((300 : ℚ) / h) := by
          rw [mul_comm, div_mul_cancel₀ _ (ne_of_gt hh0)]
      _ ≤ (h : ℚ) * thumbScale w h := this
  have hfl : (300 : ℤ) ≤ ⌊(h : ℚ) * thumbScale w h⌋ :=
    Int.le_floor.mpr (by exact_mod_cast hcov)
  rw [scaledH]
  exact (Int.le_toNat (le_trans (by norm_num) hfl)).mpr hfl

lemma crop_box_within (bigW : Nat) (hbig : 300 ≤ bigW) :
    0 ≤ cropLeft bigW ∧ cropLeft bigW + 300 ≤ (bigW : ℤ) := by
  have hnn : (0 : ℤ) ≤ (bigW : ℤ) - 300 := by
    have : (300 : ℤ) ≤ (bigW : ℤ) := by exact_mod_cast hbig
    omega
  have hediv : cropLeft bigW = ((bigW : ℤ) - 300) / 2 := by
    rw [cropLeft, Int.fdiv_eq_ediv _ (by norm_num)]
  constructor
  · rw [hediv]
    exact Int.ediv_nonneg hnn (by norm_num)
  · rw [hediv]
    have := Int.ediv_le_self 2 hnn
    omega

/-- C5: for every input image with positive pixel dimensions — portrait,
landscape or square — create_thumbnail produces exactly 300×300 output
pixels: the scale factor is the larger of 300/width and 300/height, both
scaled dimensions cover the 300×300 target, the crop box fits inside the
scaled image (a genuine center crop), and the cropped size is exactly the
target. -/
theorem create_thumbnail_exact_size (w h : Nat) (hw : 1 ≤ w) (hh : 1 ≤ h) :
    create_thumbnail_size w h = (300, 300) ∧
    thumbScale w h = max ((300 : ℚ) / w) ((300 : ℚ) / h) ∧
    300 ≤ scaledW w h ∧ 300 ≤ scaledH w h ∧
    (0 ≤ cropLeft (scaledW w h) ∧
      cropLeft (scaledW w h) + 300 ≤ (scaledW w h : ℤ)) ∧
    (0 ≤ cropTop (scaledH w h) ∧
      cropTop (scaledH w h) + 300 ≤ (scaledH w h : ℤ)) := by
  have hW := scaledW_ge w h hw
  have hH := scaledH_ge w h hh
  refine ⟨?_, rfl, hW, hH, crop_box_within _ hW, ?_⟩
  · rw [create_thumbnail_size, croppedSize, Prod.mk.injEq]
    constructor <;> ring
  · have := crop_box_within (scaledH w h) hH
    rw [cropLeft] at this
    rw [cropTop]
    exact this

/-- C5 witness: a concrete 600×150 landscape image (ratio 2 chosen by the
height) comes out exactly 300×300 with the crop box inside the 1200×300
scaled image. -/
theorem create_thumbnail_exact_size_witness :
    create_thumbnail_size 600 150 = (300, 300) ∧ 300 ≤ scaledW 600 150 :=
  ⟨(create_thumbnail_exact_size 600 150 (by decide) (by decide)).1,
   (create_thumbnail_exact_size 600 150 (by decide) (by decide)).2.2.1⟩

/-! Display-name derivation: ai_service.generate_filename_from_description,
character by character over the string data.  Python regex classes \w and
\s are modelled over the ASCII ranges Lean's Char predicates cover. -/

/-- Python regex \w for a character: alphanumeric or underscore. -/
def isWordChar (c : Char) : Bool := c.isAlphanum || c = '_'

/-- Character kept by re.sub(r'[^\w\s-]', '', ...): word, whitespace or
hyphen. -/
def keepChar (c : Char) : Bool := isWordChar c || c.isWhitespace || c = '-'

/-- Leading filler phrases removed from the lowercased description, in
source order. -/
def fillerPhrases : List String :=
  ["an image of ", "a photo of ", "a picture of ", "this is ",
   "this image shows ", "the image shows "]

/-- Removal of the first matching filler phrase (the loop breaks after one
match). -/
def stripFillerAux : List String → List Char → List Char
  | [], s => s
  | p :: ps, s =>
    if startsWithSeg p.data s then s.drop p.data.length else stripFillerAux ps s

/-- Python str.strip(chars): drop matching characters from both ends. -/
def pyStrip (p : Char → Bool) (s : List Char) : List Char :=
  ((s.dropWhile p).reverse.dropWhile p).reverse

/-- Replace every maximal run of `p`-characters by a single `rep`; `prev`
records whether the previous character belonged to a run. -/
def collapseAux (p : Char → Bool) (rep : Char) : Bool → List Char → List Char
  | _, [] => []
  | prev, c :: rest =>
    if p c then
      if prev then collapseAux p rep true rest
      else rep :: collapseAux p rep true rest
    else c :: collapseAux p rep false rest

/-- re.sub of one-or-more `p`-characters by a single `rep`. -/
def subRuns (p : Char → Bool) (rep : Char) (s : List Char) : List Char :=
  collapseAux p rep false s

/-- Python s.rfind('-'): index of the last hyphen, -1 when absent. -/
def pyRfindHyphen (s : List Char) : Int :=
  match s.reverse.findIdx? (fun c => decide (c = '-')) with
  | some i => ((s.length - 1 - i : Nat) : Int)
  | none => -1

/-- Truncation to max_length at a hyphen boundary: cut to max_length, then
back to the last hyphen when that loses at most half the budget. -/
def truncateStep (maxLen : Nat) (s : List Char) : List Char :=
  if maxLen < s.length then
    if ((maxLen / 2 : Nat) : Int) < pyRfindHyphen (s.take maxLen) then
      (s.take maxLen).take (pyRfindHyphen (s.take maxLen)).toNat
    else s.take maxLen
  else s

/-- Character pipeline of generate_filename_from_description: lowercase,
strip one filler phrase, drop punctuation, strip whitespace at the ends,
hyphenate whitespace runs, collapse hyphen runs, truncate at a hyphen
boundary, strip edge hyphens. -/
def gfdCore (s : List Char) : List Char :=
  let d1 := s.map Char.toLower
  let d2 := stripFillerAux fillerPhrases d1
  let d3 := d2.filter keepChar
  let d4 := subRuns Char.isWhitespace '-' (pyStrip Char.isWhitespace d3)
  let d5 := subRuns (fun c => decide (c = '-')) '-' d4
  let d6 := truncateStep 50 d5
  pyStrip (fun c => decide (c = '-')) d6

/-- ai_service.generate_filename_from_description with its default
max_length of 50: the character pipeline with the literal "image" fallback
for an empty result. -/
def generate_filename_from_description (description : String) : String :=
  let r := gfdCore description.data
  if r = [] then "image" else ⟨r⟩

/-- No two adjacent hyphens. -/
def noAdjHy (s : List Char) : Prop :=
  List.Chain' (fun a b => ¬(a = '-' ∧ b = '-')) s

lemma toLower_toLower (c : Char) : c.toLower.toLower = c.toLower := by
  by_cases h : c.toNat ≥ 65 ∧ c.toNat ≤ 90
  · have hv : (c.toNat + 32).isValidChar := Or.inl (by omega)
    have h1 : c.toLower = Char.ofNatAux (c.toNat + 32) hv := by
      simp only [Char.toLower, if_pos h, Char.ofNat, dif_pos hv]
    have h2 : c.toLower.toNat = c.toNat + 32 := by rw [h1]; rfl
    conv_lhs => rw [Char.toLower]
    rw [if_neg (by rw [h2]; omega)]
  · have h1 : c.toLower = c := by
      simp only [Char.toLower, if_neg h]
    rw [h1]; exact h1

lemma wordChar_not_ws {c : Char} (h : isWordChar c = true) :
    c.isWhitespace = false := by
  by_contra hws
  have hws2 : c.isWhitespace = true := by
    cases hcc : c.isWhitespace
    · exact absurd hcc hws
    · rfl
  have : c = ' ' ∨ c = '\t' ∨ c = '\r' ∨ c = '\n' := by
    revert hws2
    simp [Char.isWhitespace]
    tauto
  rcases this with rfl | rfl | rfl | rfl <;> revert h <;> decide

lemma startsWithSeg_all_mem :
    ∀ (pat s : List Char), startsWithSeg pat s = true → ∀ c ∈ pat, c ∈ s
  | [], _, _, c, hc => absurd hc (List.not_mem_nil c)
  | _ :: _, [], h, _, _ => by simp [startsWithSeg] at h
  | a :: as, b :: bs, h, c, hc => by
    rw [startsWithSeg, Bool.and_eq_true] at h
    have hab : a = b := of_decide_eq_true h.1
    rcases List.mem_cons.mp hc with rfl | hc2
    · rw [hab]
      exact List.mem_cons_self _ _
    · exact List.mem_cons_of_mem _ (startsWithSeg_all_mem as bs h.2 c hc2)

lemma stripFillerAux_eq_self (ps : List String) (s : List Char)
    (h : ∀ p ∈ ps, startsWithSeg p.data s = false) : stripFillerAux ps s = s := by
  induction ps with
  | nil => rfl
  | cons p ps ih =>
    rw [stripFillerAux, if_neg (by simp [h p (List.mem_cons_self p ps)])]
    exact ih fun q hq => h q (List.mem_cons_of_mem p hq)

lemma mem_stripFillerAux {ps : List String} {s : List Char} {c : Char}
    (hc : c ∈ stripFillerAux ps s) : c ∈ s := by
  induction ps with
  | nil => exact hc
  | cons p ps ih =>
    rw [stripFillerAux] at hc
    split at hc
    · exact (List.drop_sublist _ _).subset hc
    · exact ih hc

lemma dropWhile_eq_self_of_all {p : Char → Bool} {s : List Char}
    (h : ∀ c ∈ s, p c = false) : s.dropWhile p = s := by
  cases s with
  | nil => rfl
  | cons a rest =>
    rw [List.dropWhile_cons, if_neg (by simp [h a (List.mem_cons_self a rest)])]

lemma pyStrip_eq_self_of_all {p : Char → Bool} {s : List Char}
    (h : ∀ c ∈ s, p c = false) : pyStrip p s = s := by
  rw [pyStrip, dropWhile_eq_self_of_all h,
    dropWhile_eq_self_of_all fun c hc => h c (List.mem_reverse.mp hc),
    List.reverse_reverse]

lemma mem_pyStrip {p : Char → Bool} {s : List Char} {c : Char}
    (hc : c ∈ pyStrip p s) : c ∈ s := by
  rw [pyStrip, List.mem_reverse] at hc
  have h1 := (List.dropWhile_sublist _).subset hc
  rw [List.mem_reverse] at h1
  exact (List.dropWhile_sublist _).subset h1

lemma collapseAux_eq_self_of_all {p : Char → Bool} {rep : Char} :
    ∀ (s : List Char), (∀ c ∈ s, p c = false) → ∀ prev,
      collapseAux p rep prev s = s
  | [], _, _ => rfl
  | a :: rest, h, prev => by
    simp only [collapseAux]
    rw [if_neg (by simp [h a (List.mem_cons_self a rest)]),
      collapseAux_eq_self_of_all rest
        (fun c hc => h c (List.mem_cons_of_mem a hc)) false]

lemma mem_collapseAux {p : Char → Bool} {rep : Char} {c : Char} :
    ∀ (s : List Char) (prev : Bool), c ∈ collapseAux p rep prev s →
      c = rep ∨ (c ∈ s ∧ p c = false)
  | [], prev, hc => by simp [collapseAux] at hc
  | a :: rest, prev, hc => by
    simp only [collapseAux] at hc
    split at hc
    · split at hc
      · rcases mem_collapseAux rest true hc with h | ⟨h1, h2⟩
        · exact Or.inl h
        · exact Or.inr ⟨List.mem_cons_of_mem a h1, h2⟩
      · rcases List.mem_cons.mp hc with rfl | hc2
        · exact Or.inl rfl
        · rcases mem_collapseAux rest true hc2 with h | ⟨h1, h2⟩
          · exact Or.inl h
          · exact Or.inr ⟨List.mem_cons_of_mem a h1, h2⟩
    · rcases List.mem_cons.mp hc with rfl | hc2
      · rename_i hpa
        exact Or.inr ⟨List.mem_cons_self _ _, by simpa using hpa⟩
      · rcases mem_collapseAux rest false hc2 with h | ⟨h1, h2⟩
        · exact Or.inl h
        · exact Or.inr ⟨List.mem_cons_of_mem a h1, h2⟩

lemma collapseHy_noAdj :
    ∀ (s : List Char) (prev : Bool),
      noAdjHy (collapseAux (fun c => decide (c = '-')) '-' prev s) ∧
      (prev = true → ∀ d, (collapseAux (fun c => decide (c = '-')) '-' prev s).head? = some d →
        ¬(d = '-'))
  | [], prev => ⟨List.chain'_nil, fun _ d hd => by simp [collapseAux] at hd⟩
  | a :: rest, prev => by
    have ihT := collapseHy_noAdj rest true
    have ihF := collapseHy_noAdj rest false
    simp only [collapseAux]
    split
    · rename_i hpa
      split
      · exact ⟨ihT.1, fun _ => ihT.2 rfl⟩
      · rename_i hprev
        refine ⟨List.Chain'.cons' ihT.1 ?_, fun hp => absurd hp hprev⟩
        intro y hy
        have hy2 := ihT.2 rfl y hy
        exact fun hand => hy2 hand.2
    · rename_i hpa
      have hane : ¬(a = '-') := fun hh => hpa (decide_eq_true hh)
      refine ⟨List.Chain'.cons' ihF.1 ?_, fun _ d hd => ?_⟩
      · intro y _
        exact fun hand => hane hand.1
      · rw [List.head?_cons, Option.some.injEq] at hd
        rw [← hd]
        exact hane

lemma collapseHy_eq_self :
    ∀ (s : List Char) (prev : Bool), noAdjHy s →
      (prev = true → ∀ d, s.head? = some d → ¬(d = '-')) →
      collapseAux (fun c => decide (c = '-')) '-' prev s = s
  | [], _, _, _ => rfl
  | a :: rest, prev, hadj, hhead => by
    simp only [collapseAux]
    split
    · rename_i hpa
      have ha : a = '-' := of_decide_eq_true hpa
      split
      · rename_i hprev
        exact absurd ha (hhead (by simpa using hprev) a (by rw [List.head?_cons]))
      · rw [collapseHy_eq_self rest true hadj.tail ?_, ha]
        intro _ d hd
        have := List.Chain'.rel_head? hadj hd
        rw [ha] at this
        exact fun hdh => this ⟨rfl, hdh⟩
    · rw [collapseHy_eq_self rest false hadj.tail (fun hp _ _ => by simp at hp)]

lemma head_dropWhile_not {p : Char → Bool} :
    ∀ (s : List Char) {c : Char}, (s.dropWhile p).head? = some c → p c = false
  | [], c, h => by simp [List.dropWhile] at h
  | a :: rest, c, h => by
    rw [List.dropWhile_cons] at h
    split at h
    · exact head_dropWhile_not rest h
    · rename_i hpa
      rw [List.head?_cons, Option.some.injEq] at h
      rw [← h]
      simpa using hpa

lemma getLast?_dropWhile_of_ne_nil {p : Char → Bool} :
    ∀ (s : List Char), s.dropWhile p ≠ [] →
      (s.dropWhile p).getLast? = s.getLast?
  | [], h => absurd rfl h
  | a :: rest, h => by
    rw [List.dropWhile_cons]
    rw [List.dropWhile_cons] at h
    split
    · rename_i hpa
      rw [if_pos hpa] at h
      cases hr : rest with
      | nil => rw [hr] at h; simp [List.dropWhile] at h
      | cons b l =>
        rw [← hr, getLast?_dropWhile_of_ne_nil rest h, hr,
          List.getLast?_cons_cons]
    · rfl

lemma pyStrip_head_not {p : Char → Bool} {s : List Char} {c : Char}
    (h : (pyStrip p s).head? = some c) : p c = false := by
  rw [pyStrip, List.head?_reverse] at h
  have hne : (s.dropWhile p).reverse.dropWhile p ≠ [] := by
    intro h0
    rw [h0] at h
    simp at h
  rw [getLast?_dropWhile_of_ne_nil _ hne, List.getLast?_reverse] at h
  exact head_dropWhile_not _ h

lemma pyStrip_getLast_not {p : Char → Bool} {s : List Char} {c : Char}
    (h : (pyStrip p s).getLast? = some c) : p c = false := by
  rw [pyStrip, List.getLast?_reverse] at h
  exact head_dropWhile_not _ h

lemma pyStrip_eq_self_edges {p : Char → Bool} {s : List Char}
    (hh : ∀ c, s.head? = some c → p c = false)
    (hl : ∀ c, s.getLast? = some c → p c = false) : pyStrip p s = s := by
  have h1 : s.dropWhile p = s := by
    cases s with
    | nil => rfl
    | cons a rest => rw [List.dropWhile_cons, if_neg (by simp [hh a rfl])]
  have h2 : s.reverse.dropWhile p = s.reverse := by
    cases hsr : s.reverse with
    | nil => rfl
    | cons a rest =>
      have hla : s.getLast? = some a := by
        rw [← List.head?_reverse, hsr, List.head?_cons]
      rw [List.dropWhile_cons, if_neg (by simp [hl a hla])]
  rw [pyStrip, h1, h2, List.reverse_reverse]

lemma noAdjHy_reverse {s : List Char} (h : noAdjHy s) : noAdjHy s.reverse := by
  rw [noAdjHy, List.chain'_reverse]
  exact List.Chain'.imp (fun a b hab hba => hab ⟨hba.2, hba.1⟩) h

lemma noAdjHy_dropWhile {p : Char → Bool} {s : List Char} (h : noAdjHy s) :
    noAdjHy (s.dropWhile p) := by
  induction s with
  | nil => exact h
  | cons a rest ih =>
    rw [List.dropWhile_cons]
    split
    · exact ih h.tail
    · exact h

lemma noAdjHy_pyStrip {p : Char → Bool} {s : List Char} (h : noAdjHy s) :
    noAdjHy (pyStrip p s) :=
  noAdjHy_reverse (noAdjHy_dropWhile (noAdjHy_reverse (noAdjHy_dropWhile h)))

lemma pyStrip_length_le (p : Char → Bool) (s : List Char) :
    (pyStrip p s).length ≤ s.length := by
  rw [pyStrip, List.length_reverse]
  calc ((s.dropWhile p).reverse.dropWhile p).length
      ≤ (s.dropWhile p).reverse.length := (List.dropWhile_sublist _).length_le
    _ = (s.dropWhile p).length := List.length_reverse _
    _ ≤ s.length := (List.dropWhile_sublist _).length_le

lemma truncateStep_length_le (s : List Char) :
    (truncateStep 50 s).length ≤ 50 := by
  rw [truncateStep]
  split
  · split
    · simp only [List.length_take]
      omega
    · simp only [List.length_take]
      omega
  · omega

lemma truncateStep_noAdj {s : List Char} (h : noAdjHy s) :
    noAdjHy (truncateStep 50 s) := by
  rw [truncateStep]
  split
  · split
    · exact List.Chain'.take (List.Chain'.take h _) _
    · exact List.Chain'.take h _
  · exact h

lemma mem_truncateStep {s : List Char} {c : Char}
    (hc : c ∈ truncateStep 50 s) : c ∈ s := by
  rw [truncateStep] at hc
  split at hc
  · split at hc
    · exact (List.take_sublist _ _).subset ((List.take_sublist _ _).subset hc)
    · exact (List.take_sublist _ _).subset hc
  · exact hc

lemma gfdCore_mem (s : List Char) :
    ∀ c ∈ gfdCore s, (isWordChar c = true ∨ c = '-') ∧ c.toLower = c := by
  intro c hc
  simp only [gfdCore, subRuns] at hc
  have hc1 := mem_truncateStep (mem_pyStrip hc)
  rcases mem_collapseAux _ _ hc1 with rfl | ⟨hc2, _⟩
  · exact ⟨Or.inr rfl, by decide⟩
  · rcases mem_collapseAux _ _ hc2 with rfl | ⟨hc3, hnw⟩
    · exact ⟨Or.inr rfl, by decide⟩
    · have hc4 := mem_pyStrip hc3
      have hkc : keepChar c = true := List.of_mem_filter hc4
      have hc5 := mem_stripFillerAux (List.mem_of_mem_filter hc4)
      obtain ⟨a, -, rfl⟩ := List.mem_map.mp hc5
      refine ⟨?_, toLower_toLower a⟩
      rw [keepChar, Bool.or_eq_true, Bool.or_eq_true] at hkc
      rcases hkc with (hw | hws) | hhy
      · exact Or.inl hw
      · exact absurd hws (by simp [hnw])
      · exact Or.inr (of_decide_eq_true hhy)

lemma gfdCore_noAdj (s : List Char) : noAdjHy (gfdCore s) := by
  simp only [gfdCore, subRuns]
  exact noAdjHy_pyStrip (truncateStep_noAdj (collapseHy_noAdj _ false).1)

lemma gfdCore_length (s : List Char) : (gfdCore s).length ≤ 50 := by
  simp only [gfdCore, subRuns]
  exact le_trans (pyStrip_length_le _ _) (truncateStep_length_le _)

lemma gfdCore_head (s : List Char) :
    ∀ c, (gfdCore s).head? = some c → ¬(c = '-') := by
  intro c hc
  simp only [gfdCore, subRuns] at hc
  exact of_decide_eq_false (pyStrip_head_not hc)

lemma gfdCore_last (s : List Char) :
    ∀ c, (gfdCore s).getLast? = some c → ¬(c = '-') := by
  intro c hc
  simp only [gfdCore, subRuns] at hc
  exact of_decide_eq_false (pyStrip_getLast_not hc)

lemma gfdCore_eq_self (s : List Char)
    (hchars : ∀ c ∈ s, (isWordChar c = true ∨ c = '-') ∧ c.toLower = c)
    (hadj : noAdjHy s) (hlen : s.length ≤ 50)
    (hhead : ∀ c, s.head? = some c → ¬(c = '-'))
    (hlast : ∀ c, s.getLast? = some c → ¬(c = '-')) :
    gfdCore s = s := by
  have hnws : ∀ c ∈ s, c.isWhitespace = false := by
    intro c hc
    rcases (hchars c hc).1 with hw | hhy
    · exact wordChar_not_ws hw
    · rw [hhy]
      decide
  have h1 : s.map Char.toLower = s := by
    have h1a : s.map Char.toLower = s.map id :=
      List.map_congr_left fun a ha => (hchars a ha).2
    rw [h1a, List.map_id]
  have h2 : stripFillerAux fillerPhrases s = s := by
    apply stripFillerAux_eq_self
    intro p hp
    cases hsw : startsWithSeg p.data s with
    | false => rfl
    | true =>
      have hsp : ' ' ∈ p.data :=
        (show ∀ q ∈ fillerPhrases, ' ' ∈ q.data by decide) p hp
      exact absurd (hnws ' ' (startsWithSeg_all_mem _ _ hsw ' ' hsp)) (by decide)
  have h3 : s.filter keepChar = s := by
    rw [List.filter_eq_self]
    intro a ha
    rcases (hchars a ha).1 with hw | hhy
    · simp [keepChar, hw]
    · simp [keepChar, hhy]
  have h4 : pyStrip Char.isWhitespace s = s := pyStrip_eq_self_of_all hnws
  have h5 : subRuns Char.isWhitespace '-' s = s := by
    rw [subRuns]
    exact collapseAux_eq_self_of_all s hnws false
  have h6 : subRuns (fun c => decide (c = '-')) '-' s = s := by
    rw [subRuns]
    exact collapseHy_eq_self s false hadj fun hp => absurd hp Bool.false_ne_true
  have h7 : truncateStep 50 s = s := by
    rw [truncateStep, if_neg (not_lt.mpr hlen)]
  have h8 : pyStrip (fun c => decide (c = '-')) s = s :=
    pyStrip_eq_self_edges (fun c hc => decide_eq_false (hhead c hc))
      (fun c hc => decide_eq_false (hlast c hc))
  simp only [gfdCore, h1, h2, h3, h4, h5, h6, h7, h8]

lemma gfd_fixed (r : List Char)
    (hchars : ∀ c ∈ r, (isWordChar c = true ∨ c = '-') ∧ c.toLower = c)
    (hadj : noAdjHy r) (hlen : r.length ≤ 50)
    (hhead : ∀ c, r.head? = some c → ¬(c = '-'))
    (hlast : ∀ c, r.getLast? = some c → ¬(c = '-'))
    (hne : r ≠ []) :
    generate_filename_from_description ⟨r⟩ = ⟨r⟩ := by
  have hcore : gfdCore (String.data ⟨r⟩) = r :=
    gfdCore_eq_self r hchars hadj hlen hhead hlast
  simp only [generate_filename_from_description]
  rw [hcore, if_neg hne]

/-- C6: display-name derivation is deterministic (equal descriptions give
equal names) and idempotent on its own output: applying
generate_filename_from_description to its own result returns that result
unchanged, for every description. -/
theorem generate_filename_deterministic_idempotent :
    (∀ d e : String, d = e →
      generate_filename_from_description d = generate_filename_from_description e) ∧
    ∀ d : String,
      generate_filename_from_description (generate_filename_from_description d) =
        generate_filename_from_description d := by
  refine ⟨fun d e h => by rw [h], fun d => ?_⟩
  by_cases hr : gfdCore d.data = []
  · have h1 : generate_filename_from_description d = "image" := by
      simp only [generate_filename_from_description]
      rw [if_pos hr]
    rw [h1]
    decide
  · have h1 : generate_filename_from_description d = ⟨gfdCore d.data⟩ := by
      simp only [generate_filename_from_description]
      rw [if_neg hr]
    rw [h1]
    exact gfd_fixed (gfdCore d.data) (gfdCore_mem d.data) (gfdCore_noAdj d.data)
      (gfdCore_length d.data) (gfdCore_head d.data) (gfdCore_last d.data) hr

/-- C6 witness: a concrete description evaluates to a-dog, re-deriving from
that output returns it unchanged (theorem applied at the input), and
determinism instantiated at equal concrete inputs. -/
theorem generate_filename_deterministic_idempotent_witness :
    generate_filename_from_description "An image of  a Dog!" = "a-dog" ∧
    generate_filename_from_description
        (generate_filename_from_description "An image of  a Dog!") =
      generate_filename_from_description "An image of  a Dog!" ∧
    generate_filename_from_description "x y" = generate_filename_from_description "x y" :=
  ⟨by decide,
   generate_filename_deterministic_idempotent.2 "An image of  a Dog!",
   generate_filename_deterministic_idempotent.1 "x y" "x y" rfl⟩

/-! Enrichment pipeline: ai_service.analyze_image, get_mock_analysis and
process_image_with_ai, over an environment scripting the vision provider
and the metadata table. -/

/-- Analysis dictionary as consumed downstream (color_details, which no
database write reads, is elided; the boolean flag returned alongside
records whether the ColorThief pass executed). -/
structure Analysis where
  tags : List String
  description : String
  colors : List String
  aiGeneratedName : Option String
  processingStatus : String
deriving DecidableEq

/-- Outcome of the OpenAI chat call: JSON that parses, text that raises
json.JSONDecodeError, or an exception from the call itself. -/
inductive ProviderOutcome
  | parsed (tags : List String) (description : String) (colors : List String)
  | unparsable
  | raisesErr (msg : String)
deriving DecidableEq

/-- Environment of one analyze_image run: whether the OpenAI client is
configured, what its call does, and the hex colors the local ColorThief
pass would extract from the bytes. -/
structure AiEnv where
  openaiAvailable : Bool
  provider : ProviderOutcome
  thiefColors : List String
deriving DecidableEq

/-- Fixed mock tag set of get_mock_analysis. -/
def mockTags : List String :=
  ["photograph", "image", "digital", "visual", "content", "media"]

/-- Fixed mock description of get_mock_analysis. -/
def mockDescription : String := "An image with various visual elements and content."

/-- ai_service.get_mock_analysis: real ColorThief colors when image bytes
are truthy (so the pass runs), hard-coded mock colors otherwise. -/
def get_mock_analysis (bytesNonempty : Bool) (thief : List String) :
    Analysis × Bool :=
  if bytesNonempty then
    ({ tags := mockTags, description := mockDescription, colors := thief,
       aiGeneratedName := some (generate_filename_from_description mockDescription),
       processingStatus := "completed" }, true)
  else
    ({ tags := mockTags, description := mockDescription,
       colors := ["#4A90E2", "#F39C12", "#2ECC71"],
       aiGeneratedName := some (generate_filename_from_description mockDescription),
       processingStatus := "completed" }, false)

/-- ai_service.analyze_image: mock fallback when OpenAI is unconfigured or
its output fails JSON parsing; on a successful parse, tags capped at 15 and
lowercased, colors capped at 3, the ColorThief detail pass and the derived
name; on any other exception from the call, a fixed failed analysis is
returned without reaching the ColorThief line. -/
def analyze_image (env : AiEnv) (bytesNonempty : Bool) : Analysis × Bool :=
  if env.openaiAvailable = false then
    get_mock_analysis bytesNonempty env.thiefColors
  else
    match env.provider with
    | .parsed tags desc colors =>
      ({ tags := (tags.take 15).map pyLower, description := desc,
         colors := colors.take 3,
         aiGeneratedName := some (generate_filename_from_description desc),
         processingStatus := "completed" }, true)
    | .unparsable => get_mock_analysis bytesNonempty env.thiefColors
    | .raisesErr _ =>
      ({ tags := ["error", "processing-failed"],
         description := "Error processing image with AI",
         colors := ["#000000"], aiGeneratedName := none,
         processingStatus := "failed" }, false)

/-- One image_metadata row as stored (fields are null until written). -/
structure MetaDbRow where
  description : Option String
  tags : Option (List String)
  colors : Option (List String)
  aiGeneratedName : Option String
  aiProcessingStatus : String
deriving DecidableEq

/-- Metadata row created by create_image_record together with the catalog
item: only the pending status is set. -/
def pendingMetaRow : MetaDbRow := ⟨none, none, none, none, "pending"⟩

/-- Which metadata-table operations of process_image_with_ai raise. -/
structure DbEnv where
  selectFails : Bool
  updateFails : Bool
  insertFails : Bool
  failInsertFails : Bool
deriving DecidableEq

/-- Minimal failure record the except-branch of process_image_with_ai
tries to insert. -/
def failureInsertRow : MetaDbRow :=
  ⟨some "Error processing image", some ["error"], some ["#000000"], none, "failed"⟩

/-- Except-branch of process_image_with_ai: try to insert the minimal
failure record (an insert, not an update — against an existing row it hits
the one-row-per-image constraint and raises, which the bare `except: pass`
swallows), then re-raise the original error into the detached task. -/
def enrichExceptBranch (denv : DbEnv) (row : Option MetaDbRow) :
    Option MetaDbRow × Bool :=
  match row with
  | some r => (some r, true)
  | none => if denv.failInsertFails then (none, true) else (some failureInsertRow, true)

/-- ai_service.process_image_with_ai on the scripted environment, starting
from the current metadata row of the image: analyze (never raises), then
select-existing and update (or insert when absent); any database error
routes through the except-branch.  Returns the final row and whether an
exception escaped into the (detached) task. -/
def process_image_with_ai (aenv : AiEnv) (denv : DbEnv) (bytesNonempty : Bool)
    (row : Option MetaDbRow) : Option MetaDbRow × Bool :=
  let analysis := (analyze_image aenv bytesNonempty).1
  let written : MetaDbRow :=
    { description := some analysis.description, tags := some analysis.tags,
      colors := some analysis.colors, aiGeneratedName := analysis.aiGeneratedName,
      aiProcessingStatus := analysis.processingStatus }
  if denv.selectFails then enrichExceptBranch denv row
  else
    match row with
    | some _ =>
      if denv.updateFails then enrichExceptBranch denv row
      else (some written, false)
    | none =>
      if denv.insertFails then enrichExceptBranch denv row
      else (some written, false)

/-- Upload followed by its detached enrichment task: the upload outcome is
produced first (asyncio.create_task returns immediately), the enrichment
then runs against the pending metadata row created with the record; its
result or exception can no longer reach the upload's caller. -/
def upload_and_enrich (env : IngestEnv) (aenv : AiEnv) (denv : DbEnv)
    (userId : String) :
    (Except String Unit × BlobStore) × (Option MetaDbRow × Bool) :=
  let up := process_image_upload env userId ⟨[], []⟩
  match up.1 with
  | .ok _ => (up, process_image_with_ai aenv denv true (some pendingMetaRow))
  | .error _ => (up, (none, false))

/-- Failure record actually written when the provider call raises: the
failed analysis absorbed by analyze_image, updated onto the pending row. -/
def failedMetaRow : MetaDbRow :=
  ⟨some "Error processing image with AI", some ["error", "processing-failed"],
   some ["#000000"], none, "failed"⟩

/-- C7: when enrichment hits an unrecoverable analysis error (the provider
call raising), the failed analysis with placeholder description and tags is
written onto the very metadata row that was created pending — its status
becomes failed — nothing escapes the enrichment task in that scenario, and
the ingest caller's outcome is the same whatever the enrichment
environment does. -/
theorem enrichment_failure_absorbed (msg : String) (userId : String)
    (thief : List String) :
    (process_image_with_ai ⟨true, .raisesErr msg, thief⟩ ⟨false, false, false, false⟩
        true (some pendingMetaRow)).1 = some failedMetaRow ∧
    (process_image_with_ai ⟨true, .raisesErr msg, thief⟩ ⟨false, false, false, false⟩
        true (some pendingMetaRow)).2 = false ∧
    ∀ (aenv : AiEnv) (denv : DbEnv),
      (upload_and_enrich ⟨none, false, false, false, false, false, false⟩
          aenv denv userId).1.1 = .ok () :=
  ⟨rfl, rfl, fun _ _ => rfl⟩

/-- C8 counterexample: with the provider configured but its call raising,
analyze_image returns the fixed failed analysis without running the local
ColorThief pass — the pass is skipped on that branch, against the claim
that it is never skipped. -/
theorem analyze_image_skips_colorthief_on_error :
    (analyze_image ⟨true, .raisesErr "boom", ["#112233"]⟩ true).2 = false := rfl

/-- C8 (amended): given non-empty image bytes, the local ColorThief pass
runs whenever the provider succeeds, returns unparsable output, or is
unavailable; it is skipped exactly on the branch where the provider call
raises. -/
theorem analyze_image_colorthief_branches (env : AiEnv) (bytesNonempty : Bool)
    (hbytes : bytesNonempty = true)
    (hok : env.openaiAvailable = false ∨ ∀ msg, env.provider ≠ .raisesErr msg) :
    (analyze_image env bytesNonempty).2 = true := by
  subst hbytes
  rcases hok with hna | hnr
  · rw [analyze_image, if_pos hna]
    rfl
  · rw [analyze_image]
    split
    · rfl
    · cases hp : env.provider with
      | parsed tags desc colors => rfl
      | unparsable => rfl
      | raisesErr msg => exact absurd hp (hnr msg)

/-- C8 witness: concrete runs on the unavailable, unparsable and parsed
branches all execute the ColorThief pass. -/
theorem analyze_image_colorthief_branches_witness :
    (analyze_image ⟨false, .unparsable, ["#112233"]⟩ true).2 = true ∧
    (analyze_image ⟨true, .unparsable, ["#112233"]⟩ true).2 = true ∧
    (analyze_image ⟨true, .parsed ["sky"] "Blue sky" ["#0000FF"], ["#112233"]⟩ true).2 = true :=
  ⟨analyze_image_colorthief_branches ⟨false, .unparsable, ["#112233"]⟩ true rfl
      (Or.inl rfl),
   analyze_image_colorthief_branches ⟨true, .unparsable, ["#112233"]⟩ true rfl
      (Or.inr fun msg h => by cases h),
   analyze_image_colorthief_branches ⟨true, .parsed ["sky"] "Blue sky" ["#0000FF"],
      ["#112233"]⟩ true rfl (Or.inr fun msg h => by cases h)⟩

end Gallery
